import Mathlib

/-!
Shallow embedding of the query matching and ranking engine of
`movie_recommender.py` (the `find_matches` search pipeline and its helpers),
together with theorems settling the specification claims about it.

Conventions of the embedding:
* Python `str` values are Lean `String`s; the character-level operations
  (control-character removal, strip, split, lower-casing, substring tests)
  are implemented on `List Char` so that everything reduces by `decide`.
* Python numbers (`int`/`float` ratings and box-office revenues) are `ℚ`.
* Dynamically typed Python values reaching the engine (the raw query, the
  `min_rating` filter argument) are modelled by `PyVal`; operations on them
  return `Except String _`, an exception being a `.error`.
* The optional RapidFuzz scorer is an `Option (String → String → Nat)`
  parameter: `none` models `_HAS_RAPIDFUZZ = False`, `some f` models an
  available similarity scorer (the spec only fixes its contract: a score
  in `[0, 100]` given two strings).
* Python's stable `list.sort(key=k, reverse=True)` is modelled by insertion
  sort with the non-strict relation "key of the left element is
  lexicographically ≥ key of the right element": any two stable sorts by
  the same key agree, so this is extensionally the Python sort.
-/

namespace MovieRec

/-- A movie record as validated by `validate_movie_schema`: `name` a string,
`year` an int, `category`/`genre` strings, `box_office_millions` and
`rating` numbers.  `searchCache` models the optional `_search_text`
cached field read (but never written) by `find_matches`. -/
structure Record where
  name : String
  year : Int
  category : String
  genre : String
  box_office_millions : ℚ
  rating : ℚ
  searchCache : Option String
deriving DecidableEq, Repr

/-- Identity key `(name, year)` of a record. -/
def keyOf (m : Record) : String × Int := (m.name, m.year)

/-- A dynamically typed Python value handed to the engine. -/
inductive PyVal where
  | pstr : String → PyVal
  | pnum : ℚ → PyVal
  | pnone : PyVal
deriving DecidableEq, Repr

/-- The keyword parameters of `find_matches` other than the query. -/
structure SearchParams where
  maxResults : Option Int
  enableFuzzy : Bool
  fuzzyThreshold : Nat
  genre : Option String
  category : Option String
  minRating : Option PyVal
  year : Option Int
  yearFrom : Option Int
  yearTo : Option Int
  sortBy : Option String
deriving Repr

/-- The defaults of `find_matches`' keyword parameters
(`max_results=50`, `enable_fuzzy=True`, `fuzzy_threshold=70`, the rest `None`). -/
def defaultParams : SearchParams :=
  ⟨some 50, true, 70, none, none, none, none, none, none, none⟩

/-! ### Character-level string helpers -/

/-- `re.sub(r"[\x00-\x1f\x7f-\x9f]", "", q)`: drop ASCII control and C1
control characters. -/
def removeControl (cs : List Char) : List Char :=
  cs.filter (fun c => !(c.toNat ≤ 31 || (127 ≤ c.toNat && c.toNat ≤ 159)))

/-- Python `str.strip()`: drop leading and trailing whitespace. -/
def pyStrip (cs : List Char) : List Char :=
  ((cs.dropWhile Char.isWhitespace).reverse.dropWhile Char.isWhitespace).reverse

/-- Python `str.lower()` (ASCII model). -/
def toLowerStr (s : String) : String :=
  ⟨s.data.map Char.toLower⟩

/-- Split a character list at every separator character, keeping (possibly
empty) pieces, as `re.split` with a single-character class does. -/
def splitChars (p : Char → Bool) : List Char → List (List Char)
  | [] => [[]]
  | c :: cs =>
    if p c then [] :: splitChars p cs
    else
      match splitChars p cs with
      | [] => [[c]]
      | w :: ws => (c :: w) :: ws

/-- Split a string on separator characters and keep the nonempty pieces.
This is `re.split(...)` followed by discarding empty tokens (empty pieces
are exactly what separator runs produce, so this also models `\s+`). -/
def pySplit (p : Char → Bool) (s : String) : List String :=
  ((splitChars p s.data).map (fun l => (⟨l⟩ : String))).filter (fun t => t ≠ "")

/-- Tokens of the query: `re.split(r"\s+|/|,", q_lower)` without empties. -/
def pyTokens (s : String) : List String :=
  pySplit (fun c => c.isWhitespace || c = '/' || c = ',') s

/-- Python `str.split()`: whitespace-separated words. -/
def pyWords (s : String) : List String :=
  pySplit (fun c => c.isWhitespace) s

/-- Contiguous-sublist (substring) test on character lists. -/
def isInfixB (needle : List Char) : List Char → Bool
  | [] => needle.isEmpty
  | c :: cs => needle.isPrefixOf (c :: cs) || isInfixB needle cs

/-- Python `needle in hay` on strings: contiguous substring test. -/
def strIn (needle hay : String) : Bool :=
  isInfixB needle.data hay.data

/-- Python `hay.startswith(needle)`. -/
def strStartsWith (needle hay : String) : Bool :=
  needle.data.isPrefixOf hay.data

/-- Python `str.isdigit()` (ASCII model): nonempty and all digits. -/
def isDigitStr (s : String) : Bool :=
  !s.data.isEmpty && s.data.all Char.isDigit

/-- `int(s)` for an all-digit string. -/
def digitsToInt (s : String) : Int :=
  (s.data.foldl (fun n c => 10 * n + (c.toNat - 48)) 0 : Nat)

/-! ### Query sanitizer (`sanitize_query`) -/

/-- `sanitize_query`: raises `TypeError` on non-string input, otherwise
removes control characters, strips, and truncates to `maxLength`. -/
def sanitize_query (q : PyVal) (maxLength : Nat) : Except String String :=
  match q with
  | .pstr s => .ok ⟨(pyStrip (removeControl s.data)).take maxLength⟩
  | _ => .error "query must be a string"

/-! ### Stable descending sort by a rational key triple -/

/-- Non-strict lexicographic order on key triples. -/
def lexLe3 (x y : ℚ × ℚ × ℚ) : Prop :=
  x.1 < y.1 ∨ (x.1 = y.1 ∧ (x.2.1 < y.2.1 ∨ (x.2.1 = y.2.1 ∧ x.2.2 ≤ y.2.2)))

instance : DecidableRel lexLe3 := fun x y => by
  unfold lexLe3; exact inferInstance

/-- `sorted(l, key=key, reverse=True)` / `l.sort(key=key, reverse=True)`:
the stable descending sort by `key`, realized as insertion sort with the
non-strict relation "left key ≥ right key". -/
def pySortDesc {α : Type} (key : α → ℚ × ℚ × ℚ) (l : List α) : List α :=
  List.insertionSort (fun a b => lexLe3 (key b) (key a)) l

/-! ### Structured filter stage -/

/-- Python truthiness of an optional string (`if genre:`): present and nonempty. -/
def truthyStr : Option String → Bool
  | some s => s ≠ ""
  | none => false

/-- Python `v is not None` for an optional dynamic value. -/
def presentVal : Option PyVal → Bool
  | some .pnone => false
  | some _ => true
  | none => false

/-- The genre and category filters: case-insensitive substring checks
against both the `genre` and `category` fields (skipped for falsy values). -/
def filterGenreCat (ps : SearchParams) (l : List Record) : List Record :=
  let l1 :=
    match ps.genre with
    | some g =>
      if g ≠ "" then
        l.filter (fun m =>
          strIn (toLowerStr g) (toLowerStr m.genre) || strIn (toLowerStr g) (toLowerStr m.category))
      else l
    | none => l
  match ps.category with
  | some c =>
    if c ≠ "" then
      l1.filter (fun m =>
        strIn (toLowerStr c) (toLowerStr m.category) || strIn (toLowerStr c) (toLowerStr m.genre))
    else l1
  | none => l1

/-- Python `m.get("rating") >= min_rating` on a validated record: succeeds
with the comparison for a numeric bound, raises `TypeError` otherwise. -/
def pyNumGE (x : ℚ) (v : PyVal) : Except String Bool :=
  match v with
  | .pnum q => .ok (decide (q ≤ x))
  | .pstr _ => .error "TypeError: comparison not supported between float and str"
  | .pnone => .error "TypeError: comparison not supported between float and NoneType"

/-- A Python list comprehension with a fallible predicate: the first raised
exception aborts the whole comprehension. -/
def filterE (p : Record → Except String Bool) : List Record → Except String (List Record)
  | [] => .ok []
  | m :: rest =>
    match p m with
    | .error e => .error e
    | .ok b =>
      match filterE p rest with
      | .error e => .error e
      | .ok r => .ok (if b then m :: r else r)

/-- The `min_rating` filter.  The `isinstance` guard in the source checks the
record's `rating` field, which on schema-validated records is always numeric,
so the comprehension reduces to the (fallible) comparison itself. -/
def filterMinRating (mr : Option PyVal) (l : List Record) : Except String (List Record) :=
  match mr with
  | none => .ok l
  | some .pnone => .ok l
  | some v => filterE (fun m => pyNumGE m.rating v) l

/-- The `year`, `year_from` and `year_to` filters. -/
def filterYears (ps : SearchParams) (l : List Record) : List Record :=
  let l1 :=
    match ps.year with
    | some y => l.filter (fun m => m.year = y)
    | none => l
  let l2 :=
    match ps.yearFrom with
    | some y => l1.filter (fun m => y ≤ m.year)
    | none => l1
  match ps.yearTo with
  | some y => l2.filter (fun m => m.year ≤ y)
  | none => l2

/-- The whole structured filter stage, predicates composed in source order
(genre, category, min_rating, year, year_from, year_to). -/
def applyFilters (ps : SearchParams) (l : List Record) : Except String (List Record) :=
  match filterMinRating ps.minRating (filterGenreCat ps l) with
  | .error e => .error e
  | .ok l2 => .ok (filterYears ps l2)

/-- `True` when any filter keyword argument is present in the Python sense
(the condition guarding the empty-query-with-filters branch). -/
def filtersPresent (ps : SearchParams) : Bool :=
  truthyStr ps.genre || truthyStr ps.category || presentVal ps.minRating ||
    ps.year.isSome || ps.yearFrom.isSome || ps.yearTo.isSome

/-! ### Tiered text matcher -/

/-- The priority tier of one candidate for the token list of a non-numeric
query: 1000 for a substring hit in name/genre/category, else 900 for a name
starting with a token, else 800 for a token equal to a whole name word,
else unmatched. -/
def tierPriority (tokens : List String) (m : Record) : Option Nat :=
  let name := toLowerStr m.name
  let genreV := toLowerStr m.genre
  let categoryV := toLowerStr m.category
  if tokens.any (fun t => strIn t name || strIn t genreV || strIn t categoryV) then some 1000
  else if tokens.any (fun t => strStartsWith t name) then some 900
  else if tokens.any (fun t => (pyWords name).contains t) then some 800
  else none

/-- All `(record, priority)` pairs produced by the token tiers. -/
def textTier (tokens : List String) (l : List Record) : List (Record × Nat) :=
  l.filterMap (fun m => (tierPriority tokens m).map (fun p => (m, p)))

/-- The `(record, priority)` pairs produced before fuzzy matching: the
empty-query-with-filters branch, the numeric-query branch, or the token
tiers. -/
def baseMatches (q : String) (ps : SearchParams) (filtered : List Record) :
    List (Record × Nat) :=
  if q = "" ∧ filtersPresent ps = true then filtered.map (fun m => (m, 1000))
  else if isDigitStr q then
    (filtered.filter (fun m => m.year = digitsToInt q)).map (fun m => (m, 1000))
  else textTier (pyTokens q) filtered

/-! ### Fuzzy matching adapter -/

/-- The search text scored by the fuzzy stage: the cached `_search_text`
if present, otherwise `f"{name} {genre} {category}"`, lower-cased. -/
def searchText (m : Record) : String :=
  toLowerStr
    (match m.searchCache with
     | some s => s
     | none => m.name ++ " " ++ m.genre ++ " " ++ m.category)

/-- Candidates left for fuzzy matching: filtered records whose identity key
was not matched by any earlier tier. -/
def fuzzyCandidates (existing : List (Record × Nat)) (movieList : List Record) :
    List Record :=
  movieList.filter (fun m => !(existing.any (fun x => keyOf x.1 = keyOf m)))

/-- Key for capping the fuzzy candidate set: `(rating, box_office)` descending. -/
def ratingRevKey (m : Record) : ℚ × ℚ × ℚ :=
  (m.rating, m.box_office_millions, 0)

/-- `FUZZY_MAX_CANDIDATES`. -/
def FUZZY_MAX_CANDIDATES : Nat := 250

/-- The capped fuzzy candidate subset: candidates sorted by
`(rating, box_office)` descending, truncated to `FUZZY_MAX_CANDIDATES`. -/
def fuzzySubset (existing : List (Record × Nat)) (movieList : List Record) :
    List Record :=
  (pySortDesc ratingRevKey (fuzzyCandidates existing movieList)).take FUZZY_MAX_CANDIDATES

/-- The `(score, record)` pairs clearing the threshold, in subset order. -/
def fuzzyScored (f : String → String → Nat) (q : String) (thr : Nat)
    (subset : List Record) : List (Nat × Record) :=
  subset.filterMap (fun m =>
    let s := f q (searchText m)
    if thr ≤ s then some (s, m) else none)

/-- Key for ordering scored fuzzy matches: `(score, rating, box_office)`. -/
def scoreKey (x : Nat × Record) : ℚ × ℚ × ℚ :=
  ((x.1 : ℚ), x.2.rating, x.2.box_office_millions)

/-- The whole fuzzy stage: skipped when fuzzy matching is disabled, no scorer
is available, or the query is empty; otherwise scores the capped subset,
keeps scores `≥ fuzzy_threshold`, sorts them descending and yields each
surviving candidate with priority equal to its integer score. -/
def fuzzyStage (scorer : Option (String → String → Nat)) (enableFuzzy : Bool)
    (q : String) (thr : Nat) (existing : List (Record × Nat))
    (movieList : List Record) : List (Record × Nat) :=
  match scorer with
  | none => []
  | some f =>
    if enableFuzzy ∧ q ≠ "" then
      (pySortDesc scoreKey (fuzzyScored f q thr (fuzzySubset existing movieList))).map
        (fun x => (x.2, x.1))
    else []

/-! ### Result merger -/

/-- One step of the dedup dict: `best[key] = (p, m)` executed only when the
key is absent or the new priority is strictly greater; an existing key keeps
its position, a new key is appended. -/
def updBest (best : List ((String × Int) × (Nat × Record))) (k : String × Int)
    (pm : Nat × Record) : List ((String × Int) × (Nat × Record)) :=
  match best with
  | [] => [(k, pm)]
  | (k', v) :: rest =>
    if k' = k then (if v.1 < pm.1 then (k', pm) :: rest else (k', v) :: rest)
    else (k', v) :: updBest rest k pm

/-- The dedup dict built from all `(record, priority)` pairs. -/
def mergeBest (pairs : List (Record × Nat)) : List ((String × Int) × (Nat × Record)) :=
  pairs.foldl (fun best x => updBest best (keyOf x.1) (x.2, x.1)) []

/-- Lookup in the dedup dict (Python `best.get(key)` over the insertion-order
association list). -/
def lookupB (k : String × Int) : List ((String × Int) × (Nat × Record)) → Option (Nat × Record)
  | [] => none
  | (k', v) :: rest => if k' = k then some v else lookupB k rest

/-- `best.get(key, (0, movie))[0]`: the merged priority of a record. -/
def priorityOf (best : List ((String × Int) × (Nat × Record))) (m : Record) : Nat :=
  match lookupB (keyOf m) best with
  | some v => v.1
  | none => 0

/-! ### Ranking / sort stage -/

/-- The ranking stage: records of the merged dict in insertion order, sorted
by the explicit sort field if one is given (descending, with the source's
tie-break keys), else by `(priority, rating, box_office)` descending. -/
def sortStage (sortBy : Option String)
    (best : List ((String × Int) × (Nat × Record))) : List Record :=
  let ordered := best.map (fun e => e.2.2)
  let byPriority := fun l => pySortDesc
    (fun m => ((priorityOf best m : ℚ), m.rating, m.box_office_millions)) l
  match sortBy with
  | some s =>
    if s = "" then byPriority ordered
    else
      let sb := toLowerStr s
      if sb = "rating" then
        pySortDesc (fun m => (m.rating, m.box_office_millions, (priorityOf best m : ℚ))) ordered
      else if sb = "box_office" ∨ sb = "box_office_millions" then
        pySortDesc (fun m => (m.box_office_millions, m.rating, (priorityOf best m : ℚ))) ordered
      else if sb = "year" then
        pySortDesc (fun m => ((m.year : ℚ), m.rating, (priorityOf best m : ℚ))) ordered
      else byPriority ordered
  | none => byPriority ordered

/-- Python `ordered[:max_results]` guarded by `if max_results:`: `None` and
`0` are falsy and leave the list untruncated; a negative bound drops that
many elements from the end, as Python slicing does. -/
def pySlice (maxResults : Option Int) (l : List Record) : List Record :=
  match maxResults with
  | none => l
  | some n => if n = 0 then l else if 0 < n then l.take n.toNat else l.take (l.length - n.natAbs)

/-! ### The whole `find_matches` pipeline -/

/-- The query preparation step: `None` becomes the empty query, any other
value goes through `sanitize_query` (default `max_length=100`). -/
def queryPrep (queryText : PyVal) : Except String String :=
  match queryText with
  | .pnone => .ok ""
  | v => sanitize_query v 100

/-- Filter stage plus all matching tiers plus the merger, for an already
sanitized and lower-cased query. -/
def bestOf (scorer : Option (String → String → Nat)) (movies : List Record)
    (q : String) (ps : SearchParams) :
    Except String (List ((String × Int) × (Nat × Record))) :=
  match applyFilters ps movies with
  | .error e => .error e
  | .ok filtered =>
    let base := baseMatches q ps filtered
    let pairs := base ++ fuzzyStage scorer ps.enableFuzzy q ps.fuzzyThreshold base filtered
    .ok (mergeBest pairs)

/-- All `(record, priority)` pairs fed to the merger for the given inputs
(empty when the query preparation raised, mirroring the source's
`except Exception: return []`). -/
def pairsFor (scorer : Option (String → String → Nat)) (movies : List Record)
    (queryText : PyVal) (ps : SearchParams) : List (Record × Nat) :=
  match queryPrep queryText with
  | .error _ => []
  | .ok q0 =>
    match applyFilters ps movies with
    | .error _ => []
    | .ok filtered =>
      let q := toLowerStr q0
      let base := baseMatches q ps filtered
      base ++ fuzzyStage scorer ps.enableFuzzy q ps.fuzzyThreshold base filtered

/-- The merged dedup dict for the given inputs (empty on any raised error). -/
def bestFor (scorer : Option (String → String → Nat)) (movies : List Record)
    (queryText : PyVal) (ps : SearchParams) :
    List ((String × Int) × (Nat × Record)) :=
  match queryPrep queryText with
  | .error _ => []
  | .ok q0 =>
    match bestOf scorer movies (toLowerStr q0) ps with
    | .error _ => []
    | .ok best => best

/-- `find_matches` without the final result cap: a failed query preparation
is caught and becomes the empty result, an exception raised by the filter
stage propagates, otherwise the merged results are ranked. -/
def rankedFull (scorer : Option (String → String → Nat)) (movies : List Record)
    (queryText : PyVal) (ps : SearchParams) : Except String (List Record) :=
  match queryPrep queryText with
  | .error _ => .ok []
  | .ok q0 =>
    match bestOf scorer movies (toLowerStr q0) ps with
    | .error e => .error e
    | .ok best => .ok (sortStage ps.sortBy best)

/-- The engine's `find_matches` operation over a snapshot of the collection. -/
def find_matches (scorer : Option (String → String → Nat)) (movies : List Record)
    (queryText : PyVal) (ps : SearchParams) : Except String (List Record) :=
  (rankedFull scorer movies queryText ps).map (pySlice ps.maxResults)

/-- `find_matches` as it runs against the module-level `movies` state:
`movie_list = list(movies)` reads a snapshot, nothing is ever written back. -/
def find_matches_st (scorer : Option (String → String → Nat)) (queryText : PyVal)
    (ps : SearchParams) : StateM (List Record) (Except String (List Record)) := do
  let movieList ← get
  pure (find_matches scorer movieList queryText ps)

/-- Well-formedness of the dedup dict: pairwise distinct keys, every stored
key the identity key of its stored record. -/
def goodKeys (best : List ((String × Int) × (Nat × Record))) : Prop :=
  best.Pairwise (fun a b => a.1 ≠ b.1) ∧ ∀ e ∈ best, e.1 = keyOf e.2.2

/-- The fold step of `mergeBest`. -/
def mergeStep (best : List ((String × Int) × (Nat × Record))) (x : Record × Nat) :
    List ((String × Int) × (Nat × Record)) :=
  updBest best (keyOf x.1) (x.2, x.1)

/-- Distinctness of identity keys (the relation of the uniqueness claim). -/
def keyDistinct (a b : Record) : Prop := keyOf a ≠ keyOf b

instance : ∀ a b, Decidable (keyDistinct a b) := fun a b => by
  unfold keyDistinct; exact inferInstance

/-- The sort relation of the `sort_by="year"` branch: descending
lexicographic comparison of `(year, rating, merged priority)`. -/
def yearSortRel (best : List ((String × Int) × (Nat × Record))) (a b : Record) : Prop :=
  lexLe3 ((b.year : ℚ), b.rating, (priorityOf best b : ℚ))
    ((a.year : ℚ), a.rating, (priorityOf best a : ℚ))

/-! ### Concrete fixtures used by witnesses and counterexamples -/

/-- A record from the built-in dataset. -/
def recInception : Record := ⟨"Inception", 2010, "Blockbuster", "Sci-Fi/Thriller", 837, 9, none⟩

/-- A record from the built-in dataset. -/
def recMatrix : Record := ⟨"The Matrix", 1999, "Sci-Fi", "Action/Sci-Fi", 464, 8, none⟩

/-- A record from the built-in dataset. -/
def recCoco : Record := ⟨"Coco", 2017, "Animation", "Family/Animation", 807, 9, none⟩

/-- A record with low revenue used to exhibit tie-breaking. -/
def recFooFilm : Record := ⟨"Foo Film", 2000, "Indie", "Drama", 10, 8, none⟩

/-- A record with high revenue, same year and rating as `recFooFilm`. -/
def recBar : Record := ⟨"Bar", 2000, "Indie", "Drama", 999, 8, none⟩

/-- A record whose name contains the digits 2010 but whose year is 1984. -/
def recContact : Record := ⟨"2010 The Year We Make Contact", 1984, "Sci-Fi", "Sci-Fi", 40, 7, none⟩

/-- A substring-aware similarity scorer satisfying the scorer contract. -/
def substrScorer : String → String → Nat := fun q s => if strIn q s then 100 else 0

/-- The constant scorer returning 70, satisfying the scorer contract. -/
def const70 : String → String → Nat := fun _ _ => 70

/-- Default parameters with `sort_by="year"`. -/
def psYear : SearchParams := ⟨some 50, true, 70, none, none, none, none, none, none, some "year"⟩

/-- Default parameters with `genre="Animation"` and `min_rating=8.0`. -/
def psAnimMin : SearchParams :=
  ⟨some 50, true, 70, some "Animation", none, some (.pnum 8), none, none, none, none⟩

/-- Default parameters with a wrongly typed `min_rating`. -/
def psBadMin : SearchParams :=
  ⟨some 50, true, 70, none, none, some (.pstr "high"), none, none, none, none⟩

/-- Default parameters with `max_results=1`. -/
def psCap1 : SearchParams := ⟨some 1, true, 70, none, none, none, none, none, none, none⟩

/-- Default parameters with `max_results=None` (unlimited). -/
def psNoCap : SearchParams := ⟨none, true, 70, none, none, none, none, none, none, none⟩

/-! ### Lemmas about the descending stable sort -/

theorem lexLe3_total (x y : ℚ × ℚ × ℚ) : lexLe3 x y ∨ lexLe3 y x := by
  unfold lexLe3
  rcases lt_trichotomy x.1 y.1 with h | h | h
  · exact Or.inl (Or.inl h)
  · rcases lt_trichotomy x.2.1 y.2.1 with h2 | h2 | h2
    · exact Or.inl (Or.inr ⟨h, Or.inl h2⟩)
    · rcases le_total x.2.2 y.2.2 with h3 | h3
      · exact Or.inl (Or.inr ⟨h, Or.inr ⟨h2, h3⟩⟩)
      · exact Or.inr (Or.inr ⟨h.symm, Or.inr ⟨h2.symm, h3⟩⟩)
    · exact Or.inr (Or.inr ⟨h.symm, Or.inl h2⟩)
  · exact Or.inr (Or.inl h)

theorem lexLe3_trans {x y z : ℚ × ℚ × ℚ} (hxy : lexLe3 x y) (hyz : lexLe3 y z) :
    lexLe3 x z := by
  unfold lexLe3 at *
  rcases hxy with h1 | ⟨e1, h1 | ⟨f1, g1⟩⟩ <;> rcases hyz with h2 | ⟨e2, h2 | ⟨f2, g2⟩⟩
  · exact Or.inl (h1.trans h2)
  · exact Or.inl (e2 ▸ h1)
  · exact Or.inl (e2 ▸ h1)
  · exact Or.inl (e1.trans_lt h2)
  · exact Or.inr ⟨e1.trans e2, Or.inl (h1.trans h2)⟩
  · exact Or.inr ⟨e1.trans e2, Or.inl (f2 ▸ h1)⟩
  · exact Or.inl (e1.trans_lt h2)
  · exact Or.inr ⟨e1.trans e2, Or.inl (f1.trans_lt h2)⟩
  · exact Or.inr ⟨e1.trans e2, Or.inr ⟨f1.trans f2, g1.trans g2⟩⟩

theorem pySortDesc_perm {α : Type} (key : α → ℚ × ℚ × ℚ) (l : List α) :
    List.Perm (pySortDesc key l) l :=
  List.perm_insertionSort _ l

theorem mem_pySortDesc {α : Type} {key : α → ℚ × ℚ × ℚ} {l : List α} {a : α} :
    a ∈ pySortDesc key l ↔ a ∈ l :=
  (pySortDesc_perm key l).mem_iff

theorem pySortDesc_sorted {α : Type} (key : α → ℚ × ℚ × ℚ) (l : List α) :
    (pySortDesc key l).Pairwise (fun a b => lexLe3 (key b) (key a)) := by
  letI : IsTotal α (fun a b => lexLe3 (key b) (key a)) :=
    ⟨fun a b => lexLe3_total (key b) (key a)⟩
  letI : IsTrans α (fun a b => lexLe3 (key b) (key a)) :=
    ⟨fun _ _ _ h1 h2 => lexLe3_trans h2 h1⟩
  exact List.sorted_insertionSort _ l

/-! ### Sublist lemmas for the filter stage -/

theorem filterGenreCat_sublist (ps : SearchParams) (l : List Record) :
    List.Sublist (filterGenreCat ps l) l := by
  unfold filterGenreCat
  cases ps.genre <;> cases ps.category <;> dsimp only
  all_goals try split_ifs
  all_goals
    first
      | exact List.Sublist.refl _
      | exact List.filter_sublist _
      | exact (List.filter_sublist _).trans (List.filter_sublist _)

theorem filterE_sublist {p : Record → Except String Bool} :
    ∀ {l l' : List Record}, filterE p l = .ok l' → List.Sublist l' l := by
  intro l
  induction l with
  | nil => intro l' h; cases h; exact List.Sublist.refl _
  | cons m rest ih =>
    intro l' h
    unfold filterE at h
    cases hp : p m with
    | error e => rw [hp] at h; cases h
    | ok b =>
      rw [hp] at h
      cases hr : filterE p rest with
      | error e => rw [hr] at h; cases h
      | ok r =>
        rw [hr] at h
        cases h
        cases b with
        | true => simpa using (ih hr).cons₂ m
        | false => simpa using (ih hr).cons m

theorem filterMinRating_sublist {mr : Option PyVal} {l l' : List Record}
    (h : filterMinRating mr l = .ok l') : List.Sublist l' l := by
  cases mr with
  | none => cases h; exact List.Sublist.refl _
  | some v =>
    cases v with
    | pstr s => exact filterE_sublist h
    | pnum q => exact filterE_sublist h
    | pnone => cases h; exact List.Sublist.refl _

theorem filterYears_sublist (ps : SearchParams) (l : List Record) :
    List.Sublist (filterYears ps l) l := by
  unfold filterYears
  cases ps.year <;> cases ps.yearFrom <;> cases ps.yearTo <;> dsimp only
  all_goals
    first
      | exact List.Sublist.refl _
      | exact List.filter_sublist _
      | exact (List.filter_sublist _).trans (List.filter_sublist _)
      | exact ((List.filter_sublist _).trans (List.filter_sublist _)).trans
          (List.filter_sublist _)

theorem applyFilters_sublist {ps : SearchParams} {l l' : List Record}
    (h : applyFilters ps l = .ok l') : List.Sublist l' l := by
  unfold applyFilters at h
  cases hm : filterMinRating ps.minRating (filterGenreCat ps l) with
  | error e => rw [hm] at h; cases h
  | ok l2 =>
    rw [hm] at h
    cases h
    exact ((filterYears_sublist ps l2).trans (filterMinRating_sublist hm)).trans
      (filterGenreCat_sublist ps l)

/-! ### Predicate lemmas for the filter stage -/

theorem mem_filterGenreCat_genre {ps : SearchParams} {l : List Record} {g : String}
    (hg : ps.genre = some g) (hne : g ≠ "") {m : Record}
    (hm : m ∈ filterGenreCat ps l) :
    (strIn (toLowerStr g) (toLowerStr m.genre) ||
      strIn (toLowerStr g) (toLowerStr m.category)) = true := by
  unfold filterGenreCat at hm
  rw [hg] at hm
  simp only [if_pos hne] at hm
  cases hc : ps.category with
  | none =>
    rw [hc] at hm
    exact (List.mem_filter.mp hm).2
  | some c =>
    rw [hc] at hm
    dsimp only at hm
    by_cases hce : c ≠ ""
    · rw [if_pos hce] at hm
      exact (List.mem_filter.mp (List.mem_filter.mp hm).1).2
    · rw [if_neg hce] at hm
      exact (List.mem_filter.mp hm).2

theorem mem_filterE {p : Record → Except String Bool} :
    ∀ {l l' : List Record}, filterE p l = .ok l' → ∀ {m}, m ∈ l' → p m = .ok true := by
  intro l
  induction l with
  | nil => intro l' h m hm; cases h; cases hm
  | cons a rest ih =>
    intro l' h m hm
    unfold filterE at h
    cases hp : p a with
    | error e => rw [hp] at h; cases h
    | ok b =>
      rw [hp] at h
      cases hr : filterE p rest with
      | error e => rw [hr] at h; cases h
      | ok r =>
        rw [hr] at h
        cases h
        cases b with
        | true =>
          rw [if_pos rfl] at hm
          rcases List.mem_cons.mp hm with rfl | hm2
          · exact hp
          · exact ih hr hm2
        | false =>
          rw [if_neg (by simp)] at hm
          exact ih hr hm

theorem mem_filterMinRating_pred {mrq : ℚ} {l l' : List Record}
    (h : filterMinRating (some (.pnum mrq)) l = .ok l') {m : Record}
    (hm : m ∈ l') : mrq ≤ m.rating := by
  have := mem_filterE (p := fun m => pyNumGE m.rating (.pnum mrq)) h hm
  simpa [pyNumGE] using this

/-! ### Lemmas about the result merger -/

theorem mem_updBest {best : List ((String × Int) × (Nat × Record))}
    {k : String × Int} {pm : Nat × Record} {e} (h : e ∈ updBest best k pm) :
    e ∈ best ∨ e = (k, pm) := by
  induction best with
  | nil => simpa [updBest] using h
  | cons hd rest ih =>
    obtain ⟨k', v⟩ := hd
    unfold updBest at h
    by_cases hk : k' = k
    · rw [if_pos hk] at h
      by_cases hv : v.1 < pm.1
      · rw [if_pos hv] at h
        rcases List.mem_cons.mp h with rfl | h2
        · exact Or.inr (by rw [hk])
        · exact Or.inl (List.mem_cons_of_mem _ h2)
      · rw [if_neg hv] at h
        exact Or.inl h
    · rw [if_neg hk] at h
      rcases List.mem_cons.mp h with rfl | h2
      · exact Or.inl (List.mem_cons_self _ _)
      · rcases ih h2 with h3 | h3
        · exact Or.inl (List.mem_cons_of_mem _ h3)
        · exact Or.inr h3

theorem goodKeys_updBest {best : List ((String × Int) × (Nat × Record))}
    {k : String × Int} {pm : Nat × Record} (hgood : goodKeys best)
    (hk : k = keyOf pm.2) : goodKeys (updBest best k pm) := by
  obtain ⟨hpw, hkeys⟩ := hgood
  induction best with
  | nil =>
    refine ⟨List.pairwise_singleton _ _, ?_⟩
    intro e he
    rcases List.mem_singleton.mp he with rfl
    exact hk
  | cons hd rest ih =>
    obtain ⟨k', v⟩ := hd
    rw [List.pairwise_cons] at hpw
    unfold updBest
    by_cases hkk : k' = k
    · rw [if_pos hkk]
      by_cases hv : v.1 < pm.1
      · rw [if_pos hv]
        refine ⟨List.pairwise_cons.mpr ⟨hpw.1, hpw.2⟩, ?_⟩
        intro e he
        rcases List.mem_cons.mp he with rfl | h2
        · exact hkk.trans hk
        · exact hkeys e (List.mem_cons_of_mem _ h2)
      · rw [if_neg hv]
        exact ⟨List.pairwise_cons.mpr ⟨hpw.1, hpw.2⟩, hkeys⟩
    · rw [if_neg hkk]
      have hrest : goodKeys (updBest rest k pm) := by
        have := ih hpw.2 (fun e he => hkeys e (List.mem_cons_of_mem _ he))
        exact this
      refine ⟨List.pairwise_cons.mpr ⟨?_, hrest.1⟩, ?_⟩
      · intro e he
        rcases mem_updBest he with h2 | rfl
        · exact hpw.1 e h2
        · exact hkk
      · intro e he
        rcases List.mem_cons.mp he with rfl | h2
        · exact hkeys _ (List.mem_cons_self _ _)
        · exact hrest.2 e h2

theorem lookupB_updBest_none {best : List ((String × Int) × (Nat × Record))}
    {k : String × Int} {pm : Nat × Record} (h : lookupB k best = none) :
    lookupB k (updBest best k pm) = some pm := by
  induction best with
  | nil => simp [updBest, lookupB]
  | cons hd rest ih =>
    obtain ⟨k', v⟩ := hd
    unfold updBest
    unfold lookupB at h
    by_cases hk : k' = k
    · rw [if_pos hk] at h; cases h
    · rw [if_neg hk] at h
      rw [if_neg hk]
      unfold lookupB
      rw [if_neg hk]
      exact ih h

theorem lookupB_updBest_some {best : List ((String × Int) × (Nat × Record))}
    {k : String × Int} {pm v : Nat × Record} (h : lookupB k best = some v) :
    lookupB k (updBest best k pm) = some (if v.1 < pm.1 then pm else v) := by
  induction best with
  | nil => cases h
  | cons hd rest ih =>
    obtain ⟨k', w⟩ := hd
    unfold lookupB at h
    unfold updBest
    by_cases hk : k' = k
    · rw [if_pos hk] at h
      cases h
      rw [if_pos hk]
      by_cases hv : v.1 < pm.1
      · rw [if_pos hv, if_pos hv]
        unfold lookupB
        rw [if_pos hk]
      · rw [if_neg hv, if_neg hv]
        unfold lookupB
        rw [if_pos hk]
    · rw [if_neg hk] at h
      rw [if_neg hk]
      unfold lookupB
      rw [if_neg hk]
      exact ih h

theorem lookupB_updBest_ne {best : List ((String × Int) × (Nat × Record))}
    {k k' : String × Int} {pm : Nat × Record} (h : k' ≠ k) :
    lookupB k' (updBest best k pm) = lookupB k' best := by
  induction best with
  | nil =>
    have hne : ¬ k = k' := fun e => h e.symm
    simp [updBest, lookupB, hne]
  | cons hd rest ih =>
    obtain ⟨k'', v⟩ := hd
    unfold updBest
    by_cases hk : k'' = k
    · rw [if_pos hk]
      by_cases hv : v.1 < pm.1
      · rw [if_pos hv]
        unfold lookupB
        have hne : ¬ k'' = k' := fun e => h (e.symm.trans hk)
        rw [if_neg hne, if_neg hne]
      · rw [if_neg hv]
    · rw [if_neg hk]
      unfold lookupB
      by_cases hkk : k'' = k'
      · rw [if_pos hkk, if_pos hkk]
      · rw [if_neg hkk, if_neg hkk]
        exact ih

theorem lookupB_updBest_le {best : List ((String × Int) × (Nat × Record))}
    (k : String × Int) (pm : Nat × Record) :
    ∃ w, lookupB k (updBest best k pm) = some w ∧ pm.1 ≤ w.1 := by
  cases h : lookupB k best with
  | none => exact ⟨pm, lookupB_updBest_none h, le_refl _⟩
  | some v =>
    refine ⟨if v.1 < pm.1 then pm else v, lookupB_updBest_some h, ?_⟩
    by_cases hv : v.1 < pm.1
    · rw [if_pos hv]
    · rw [if_neg hv]; exact le_of_not_lt hv

theorem lookupB_updBest_mono {best : List ((String × Int) × (Nat × Record))}
    {k' : String × Int} {v : Nat × Record} (k : String × Int) (pm : Nat × Record)
    (h : lookupB k' best = some v) :
    ∃ w, lookupB k' (updBest best k pm) = some w ∧ v.1 ≤ w.1 := by
  by_cases hk : k' = k
  · subst hk
    rw [lookupB_updBest_some h]
    by_cases hv : v.1 < pm.1
    · rw [if_pos hv]
      exact ⟨pm, rfl, le_of_lt hv⟩
    · rw [if_neg hv]
      exact ⟨v, rfl, le_refl _⟩
  · exact ⟨v, (lookupB_updBest_ne hk).trans h, le_refl _⟩

theorem mergeBest_eq_foldl (pairs : List (Record × Nat)) :
    mergeBest pairs = pairs.foldl mergeStep [] := rfl

theorem foldl_mergeStep_lookup_mono :
    ∀ (pairs : List (Record × Nat)) {acc : List ((String × Int) × (Nat × Record))}
      {k : String × Int} {v : Nat × Record}, lookupB k acc = some v →
      ∃ w, lookupB k (pairs.foldl mergeStep acc) = some w ∧ v.1 ≤ w.1 := by
  intro pairs
  induction pairs with
  | nil => intro acc k v h; exact ⟨v, h, le_refl _⟩
  | cons x rest ih =>
    intro acc k v h
    rcases @lookupB_updBest_mono acc _ _ (keyOf x.1) (x.2, x.1) h with ⟨w, hw, hle⟩
    rcases ih hw with ⟨w2, hw2, hle2⟩
    exact ⟨w2, hw2, hle.trans hle2⟩

theorem mergeBest_lookup_ge {pairs : List (Record × Nat)} {m : Record} {p : Nat}
    (h : (m, p) ∈ pairs) :
    ∃ v, lookupB (keyOf m) (mergeBest pairs) = some v ∧ p ≤ v.1 := by
  rw [mergeBest_eq_foldl]
  have H : ∀ (pairs2 : List (Record × Nat)) (acc), (m, p) ∈ pairs2 →
      ∃ v, lookupB (keyOf m) (pairs2.foldl mergeStep acc) = some v ∧ p ≤ v.1 := by
    intro pairs2
    induction pairs2 with
    | nil => intro acc h2; cases h2
    | cons x rest ih =>
      intro acc h2
      rcases List.mem_cons.mp h2 with rfl | h3
      · rcases @lookupB_updBest_le acc (keyOf m) (p, m) with ⟨w, hw, hle⟩
        rcases foldl_mergeStep_lookup_mono rest hw with ⟨w2, hw2, hle2⟩
        exact ⟨w2, hw2, hle.trans hle2⟩
      · exact ih (mergeStep acc x) h3
  exact H pairs [] h

theorem goodKeys_mergeBest (pairs : List (Record × Nat)) : goodKeys (mergeBest pairs) := by
  rw [mergeBest_eq_foldl]
  have H : ∀ (pairs2 : List (Record × Nat)) (acc), goodKeys acc →
      goodKeys (pairs2.foldl mergeStep acc) := by
    intro pairs2
    induction pairs2 with
    | nil => intro acc h; exact h
    | cons x rest ih =>
      intro acc h
      exact ih _ (goodKeys_updBest h rfl)
  exact H pairs [] ⟨List.Pairwise.nil, by intro e he; cases he⟩

theorem mergeBest_mem {pairs : List (Record × Nat)} {e} (h : e ∈ mergeBest pairs) :
    (e.2.2, e.2.1) ∈ pairs := by
  rw [mergeBest_eq_foldl] at h
  have H : ∀ (pairs2 : List (Record × Nat)) (acc), e ∈ pairs2.foldl mergeStep acc →
      e ∈ acc ∨ (e.2.2, e.2.1) ∈ pairs2 := by
    intro pairs2
    induction pairs2 with
    | nil => intro acc h2; exact Or.inl h2
    | cons x rest ih =>
      intro acc h2
      rcases ih (mergeStep acc x) h2 with h3 | h3
      · rcases mem_updBest h3 with h4 | h4
        · exact Or.inl h4
        · right
          rw [h4]
          exact List.mem_cons_self _ _
      · exact Or.inr (List.mem_cons_of_mem _ h3)
  rcases H pairs [] h with h2 | h2
  · cases h2
  · exact h2

theorem lookupB_mem {l : List ((String × Int) × (Nat × Record))}
    {k : String × Int} {v : Nat × Record} (h : lookupB k l = some v) : (k, v) ∈ l := by
  induction l with
  | nil => cases h
  | cons hd rest ih =>
    obtain ⟨k', w⟩ := hd
    unfold lookupB at h
    by_cases hk : k' = k
    · rw [if_pos hk] at h
      cases h
      rw [hk]
      exact List.mem_cons_self _ _
    · rw [if_neg hk] at h
      exact List.mem_cons_of_mem _ (ih h)

/-! ### Membership lemmas for the matching tiers -/

theorem tierPriority_values {tokens : List String} {m : Record} {p : Nat}
    (h : tierPriority tokens m = some p) : p = 1000 ∨ p = 900 ∨ p = 800 := by
  unfold tierPriority at h
  dsimp only at h
  split_ifs at h <;> simp_all

theorem baseMatches_mem {q : String} {ps : SearchParams} {filtered : List Record}
    {m : Record} {p : Nat} (h : (m, p) ∈ baseMatches q ps filtered) : m ∈ filtered := by
  unfold baseMatches at h
  split_ifs at h with h1 h2
  · rcases List.mem_map.mp h with ⟨a, ha, he⟩
    cases he
    exact ha
  · rcases List.mem_map.mp h with ⟨a, ha, he⟩
    cases he
    exact List.mem_of_mem_filter ha
  · rcases List.mem_filterMap.mp h with ⟨a, ha, he⟩
    rcases Option.map_eq_some'.mp he with ⟨p', _, he2⟩
    cases he2
    exact ha

theorem mem_fuzzyScored {f : String → String → Nat} {q : String} {thr : Nat}
    {subset : List Record} {s : Nat} {m : Record} :
    (s, m) ∈ fuzzyScored f q thr subset ↔
      m ∈ subset ∧ s = f q (searchText m) ∧ thr ≤ s := by
  constructor
  · intro h
    rcases List.mem_filterMap.mp h with ⟨a, ha, he⟩
    dsimp only at he
    by_cases ht : thr ≤ f q (searchText a)
    · rw [if_pos ht] at he
      cases he
      exact ⟨ha, rfl, ht⟩
    · rw [if_neg ht] at he
      cases he
  · rintro ⟨hm, rfl, ht⟩
    exact List.mem_filterMap.mpr ⟨m, hm, by dsimp only; rw [if_pos ht]⟩

theorem mem_fuzzySubset {existing : List (Record × Nat)} {movieList : List Record}
    {m : Record} (h : m ∈ fuzzySubset existing movieList) : m ∈ movieList := by
  unfold fuzzySubset at h
  have h2 := List.mem_of_mem_take h
  rw [mem_pySortDesc] at h2
  exact List.mem_of_mem_filter h2

theorem fuzzyStage_mem {scorer : Option (String → String → Nat)} {ef : Bool}
    {q : String} {thr : Nat} {existing : List (Record × Nat)}
    {movieList : List Record} {m : Record} {p : Nat}
    (h : (m, p) ∈ fuzzyStage scorer ef q thr existing movieList) :
    ∃ f, scorer = some f ∧ m ∈ movieList ∧ p = f q (searchText m) ∧ thr ≤ p := by
  unfold fuzzyStage at h
  cases scorer with
  | none => cases h
  | some f =>
    refine ⟨f, rfl, ?_⟩
    split_ifs at h with hc
    · rcases List.mem_map.mp h with ⟨x, hx, he⟩
      cases he
      rw [mem_pySortDesc] at hx
      rcases mem_fuzzyScored.mp hx with ⟨hm, hs, ht⟩
      exact ⟨mem_fuzzySubset hm, hs, by rw [hs] at ht ⊢; exact ht⟩
    · cases h

/-! ### Lemmas for the sort stage and the result cap -/

theorem sortStage_mem {sb : Option String}
    {best : List ((String × Int) × (Nat × Record))} {r : Record} :
    r ∈ sortStage sb best ↔ r ∈ best.map (fun e => e.2.2) := by
  unfold sortStage
  cases sb with
  | none =>
    dsimp only
    rw [mem_pySortDesc]
  | some s =>
    dsimp only
    split_ifs <;> rw [mem_pySortDesc]

theorem pySortDesc_pairwise {α : Type} {R : α → α → Prop} (hR : Symmetric R)
    (key : α → ℚ × ℚ × ℚ) {l : List α} (h : l.Pairwise R) :
    (pySortDesc key l).Pairwise R :=
  ((pySortDesc_perm key l).pairwise_iff (fun hxy => hR hxy)).mpr h

theorem sortStage_pairwise_keys {sb : Option String}
    {best : List ((String × Int) × (Nat × Record))} (h : goodKeys best) :
    (sortStage sb best).Pairwise (fun a b => keyOf a ≠ keyOf b) := by
  have hsymm : Symmetric (fun (a b : Record) => keyOf a ≠ keyOf b) :=
    fun a b hab e => hab e.symm
  have hord : (best.map (fun e => e.2.2)).Pairwise (fun a b => keyOf a ≠ keyOf b) := by
    rw [List.pairwise_map]
    refine h.1.imp_of_mem ?_
    intro a b ha hb hab
    rw [← h.2 a ha, ← h.2 b hb]
    exact hab
  unfold sortStage
  cases sb with
  | none => exact pySortDesc_pairwise hsymm _ hord
  | some s =>
    dsimp only
    split_ifs <;> exact pySortDesc_pairwise hsymm _ hord

theorem pySlice_sublist (mr : Option Int) (l : List Record) :
    List.Sublist (pySlice mr l) l := by
  unfold pySlice
  cases mr with
  | none => exact List.Sublist.refl _
  | some n =>
    dsimp only
    split_ifs
    · exact List.Sublist.refl _
    · exact List.take_sublist _ _
    · exact List.take_sublist _ _

theorem mem_pySlice {mr : Option Int} {l : List Record} {r : Record}
    (h : r ∈ pySlice mr l) : r ∈ l :=
  (pySlice_sublist mr l).mem h

theorem pySlice_nil (mr : Option Int) : pySlice mr [] = [] := by
  unfold pySlice
  cases mr with
  | none => rfl
  | some n =>
    dsimp only
    split_ifs <;> simp

theorem pySlice_none (l : List Record) : pySlice none l = l := rfl

theorem pySlice_zero (l : List Record) : pySlice (some 0) l = l := by
  simp [pySlice]

theorem pySlice_pos {n : Int} (hn : 0 < n) (l : List Record) :
    pySlice (some n) l = l.take n.toNat := by
  unfold pySlice
  dsimp only
  rw [if_neg (by omega), if_pos hn]

/-! ### Decomposition of a successful `find_matches` run -/

theorem find_matches_ok_cases {scorer : Option (String → String → Nat)}
    {movies : List Record} {v : PyVal} {ps : SearchParams} {out : List Record}
    (h : find_matches scorer movies v ps = .ok out) :
    out = [] ∨
      ∃ q0 filtered, queryPrep v = .ok q0 ∧ applyFilters ps movies = .ok filtered ∧
        (let q := toLowerStr q0
         let base := baseMatches q ps filtered
         let pairs := base ++ fuzzyStage scorer ps.enableFuzzy q ps.fuzzyThreshold base filtered
         out = pySlice ps.maxResults (sortStage ps.sortBy (mergeBest pairs))) := by
  unfold find_matches rankedFull bestOf at h
  cases hq : queryPrep v with
  | error e =>
    rw [hq] at h
    cases h
    exact Or.inl (pySlice_nil _)
  | ok q0 =>
    rw [hq] at h
    cases haf : applyFilters ps movies with
    | error e => rw [haf] at h; cases h
    | ok filtered =>
      rw [haf] at h
      cases h
      exact Or.inr ⟨q0, filtered, rfl, rfl, rfl⟩

theorem find_matches_ok_mem {scorer : Option (String → String → Nat)}
    {movies : List Record} {v : PyVal} {ps : SearchParams} {out : List Record}
    {r : Record} (h : find_matches scorer movies v ps = .ok out) (hr : r ∈ out) :
    ∃ filtered, applyFilters ps movies = .ok filtered ∧ r ∈ filtered := by
  rcases find_matches_ok_cases h with rfl | ⟨q0, filtered, hq, haf, hout⟩
  · cases hr
  · refine ⟨filtered, haf, ?_⟩
    dsimp only at hout
    subst hout
    have h1 := mem_pySlice hr
    rw [sortStage_mem] at h1
    rcases List.mem_map.mp h1 with ⟨e, he, hre⟩
    have h2 := mergeBest_mem he
    rw [hre] at h2
    rcases List.mem_append.mp h2 with h3 | h3
    · exact baseMatches_mem h3
    · rcases fuzzyStage_mem h3 with ⟨f, _, hm, _, _⟩
      exact hm

theorem sortStage_nil (sb : Option String) : sortStage sb [] = [] := by
  unfold sortStage
  cases sb with
  | none => rfl
  | some s =>
    dsimp only
    split_ifs <;> rfl

theorem bestFor_eq_mergeBest (scorer : Option (String → String → Nat))
    (movies : List Record) (v : PyVal) (ps : SearchParams) :
    bestFor scorer movies v ps = mergeBest (pairsFor scorer movies v ps) := by
  unfold bestFor pairsFor bestOf
  cases queryPrep v with
  | error e => rfl
  | ok q0 =>
    dsimp only
    cases applyFilters ps movies with
    | error e => rfl
    | ok filtered => rfl

theorem find_matches_ok_best {scorer : Option (String → String → Nat)}
    {movies : List Record} {v : PyVal} {ps : SearchParams} {out : List Record}
    (h : find_matches scorer movies v ps = .ok out) :
    out = pySlice ps.maxResults (sortStage ps.sortBy (bestFor scorer movies v ps)) := by
  unfold find_matches rankedFull at h
  unfold bestFor
  cases hq : queryPrep v with
  | error e =>
    try rw [hq] at h
    try rw [hq]
    dsimp only at h ⊢
    simp only [Except.map] at h
    cases h
    rw [sortStage_nil]
  | ok q0 =>
    try rw [hq] at h
    try rw [hq]
    dsimp only at h ⊢
    cases hb : bestOf scorer movies (toLowerStr q0) ps with
    | error e =>
      try rw [hb] at h
      try rw [hb]
      dsimp only at h ⊢
      simp only [Except.map] at h
      cases h
    | ok best =>
      try rw [hb] at h
      try rw [hb]
      dsimp only at h ⊢
      simp only [Except.map] at h
      cases h
      rfl

theorem fuzzyStage_off {scorer : Option (String → String → Nat)} {ef : Bool}
    {q : String} {thr : Nat} {existing : List (Record × Nat)}
    {movieList : List Record} (h : ef = false ∨ scorer = none) :
    fuzzyStage scorer ef q thr existing movieList = [] := by
  unfold fuzzyStage
  cases scorer with
  | none => rfl
  | some f =>
    rcases h with rfl | h2
    · dsimp only
      rw [if_neg]
      rintro ⟨h3, _⟩
      cases h3
    · cases h2

theorem isDigitStr_ne_empty {q : String} (h : isDigitStr q = true) : q ≠ "" := by
  intro e
  rw [e] at h
  simp [isDigitStr] at h

theorem baseMatches_digit {q : String} {ps : SearchParams} {filtered : List Record}
    (hdig : isDigitStr q = true) :
    baseMatches q ps filtered =
      (filtered.filter (fun m => m.year = digitsToInt q)).map (fun m => (m, 1000)) := by
  unfold baseMatches
  rw [if_neg, if_pos hdig]
  rintro ⟨h1, _⟩
  exact isDigitStr_ne_empty hdig h1

theorem eq_of_mem_keyDistinct {l : List Record} (h : l.Pairwise keyDistinct)
    {a b : Record} (ha : a ∈ l) (hb : b ∈ l) (hk : keyOf a = keyOf b) : a = b := by
  induction l with
  | nil => cases ha
  | cons hd tl ih =>
    rw [List.pairwise_cons] at h
    rcases List.mem_cons.mp ha with rfl | ha2
    · rcases List.mem_cons.mp hb with rfl | hb2
      · rfl
      · exact absurd hk (h.1 b hb2)
    · rcases List.mem_cons.mp hb with rfl | hb2
      · exact absurd hk.symm (h.1 a ha2)
      · exact ih h.2 ha2 hb2

theorem applyFilters_ok_decomp {ps : SearchParams} {l filtered : List Record}
    (h : applyFilters ps l = .ok filtered) :
    ∃ l2, filterMinRating ps.minRating (filterGenreCat ps l) = .ok l2 ∧
      filtered = filterYears ps l2 := by
  unfold applyFilters at h
  cases hm : filterMinRating ps.minRating (filterGenreCat ps l) with
  | error e => rw [hm] at h; cases h
  | ok l2 =>
    rw [hm] at h
    cases h
    exact ⟨l2, rfl, rfl⟩

theorem applyFilters_no_filters {ps : SearchParams} {l : List Record}
    (hg : ps.genre = none) (hc : ps.category = none) (hmr : ps.minRating = none)
    (hy : ps.year = none) (hyf : ps.yearFrom = none) (hyt : ps.yearTo = none) :
    applyFilters ps l = .ok l := by
  unfold applyFilters filterGenreCat filterMinRating filterYears
  rw [hg, hc, hmr, hy, hyf, hyt]

theorem filtersPresent_false {ps : SearchParams}
    (hg : ps.genre = none) (hc : ps.category = none) (hmr : ps.minRating = none)
    (hy : ps.year = none) (hyf : ps.yearFrom = none) (hyt : ps.yearTo = none) :
    filtersPresent ps = false := by
  unfold filtersPresent
  rw [hg, hc, hmr, hy, hyf, hyt]
  rfl

theorem tierPriority_nil (m : Record) : tierPriority [] m = none := by
  unfold tierPriority
  rfl

theorem textTier_nil (l : List Record) : textTier [] l = [] := by
  unfold textTier
  induction l with
  | nil => rfl
  | cons hd tl ih =>
    rw [List.filterMap_cons, tierPriority_nil]
    exact ih

/-! ### Claim theorems -/

/-- C3 (counterexample): at the concrete non-text query `5`, `sanitize_query`
raises a `TypeError`, but `find_matches` catches it and returns the empty
result `Except.ok []` instead of surfacing the error to the caller —
refuting the claim that search fails fast on non-text input. -/
theorem invalid_query_cex :
    sanitize_query (.pnum 5) 100 = .error "query must be a string" ∧
      find_matches none [recInception] (.pnum 5) defaultParams = .ok [] :=
  ⟨rfl, rfl⟩

/-- C3 (amended): for every non-text (numeric) query, `sanitize_query`
raises a `TypeError`-class error, but `find_matches` swallows it
(`except Exception: return []`) and returns the empty list: no partial
result is produced, and no error reaches the caller. -/
theorem invalid_query_swallowed (scorer : Option (String → String → Nat))
    (movies : List Record) (ps : SearchParams) (x : ℚ) :
    sanitize_query (.pnum x) 100 = .error "query must be a string" ∧
      find_matches scorer movies (.pnum x) ps = .ok [] := by
  constructor
  · rfl
  · unfold find_matches rankedFull queryPrep
    dsimp only
    simp only [sanitize_query, Except.map, pySlice_nil]

/-- C4 (counterexample): with the wrongly typed filter
`min_rating = "high"` and a nonempty collection, `find_matches` raises a
`TypeError` instead of treating the filter as absent — refuting the claim
that a wrong-typed filter predicate is ignored. -/
theorem min_rating_wrong_type_cex :
    find_matches none [recInception] (.pstr "z") psBadMin =
      .error "TypeError: comparison not supported between float and str" := rfl

/-- C4 (amended): a `min_rating` value of string type is not treated as an
absent filter: as soon as any record survives the genre/category filters,
the `rating >= min_rating` comparison raises a `TypeError` that propagates
out of `find_matches` (the `isinstance` guard at the cited lines checks the
record's rating field, not the filter value). -/
theorem min_rating_wrong_type_raises {scorer : Option (String → String → Nat)}
    {movies : List Record} {ps : SearchParams} {q mrs : String}
    (hmr : ps.minRating = some (.pstr mrs))
    (hne : filterGenreCat ps movies ≠ []) :
    find_matches scorer movies (.pstr q) ps =
      .error "TypeError: comparison not supported between float and str" := by
  obtain ⟨m, rest, hcons⟩ := List.exists_cons_of_ne_nil hne
  have haf : applyFilters ps movies =
      .error "TypeError: comparison not supported between float and str" := by
    unfold applyFilters
    rw [hmr, hcons]
    unfold filterMinRating filterE
    rfl
  unfold find_matches rankedFull queryPrep
  dsimp only
  unfold sanitize_query
  dsimp only
  unfold bestOf
  rw [haf]
  rfl

/-- C4 (witness): the amended theorem applied at a concrete input. -/
theorem min_rating_wrong_type_witness :
    find_matches none [recInception] (.pstr "q2") psBadMin =
      .error "TypeError: comparison not supported between float and str" :=
  min_rating_wrong_type_raises rfl (by decide)

/-- C5: every record returned by a search with filters `genre = g` (nonempty)
and `min_rating = mrq` has `g` as a case-insensitive substring of its genre
or category field AND rating at least `mrq`: present filter predicates
compose as logical AND. -/
theorem filter_conjunction (scorer : Option (String → String → Nat))
    (movies : List Record) (v : PyVal) (ps : SearchParams) {g : String} {mrq : ℚ}
    {out : List Record} {r : Record}
    (hg : ps.genre = some g) (hgne : g ≠ "")
    (hmr : ps.minRating = some (.pnum mrq))
    (h : find_matches scorer movies v ps = .ok out) (hr : r ∈ out) :
    (strIn (toLowerStr g) (toLowerStr r.genre) ||
      strIn (toLowerStr g) (toLowerStr r.category)) = true ∧ mrq ≤ r.rating := by
  rcases find_matches_ok_mem h hr with ⟨filtered, haf, hrf⟩
  rcases applyFilters_ok_decomp haf with ⟨l2, hmin, rfl⟩
  have hr2 : r ∈ l2 := (filterYears_sublist ps l2).mem hrf
  rw [hmr] at hmin
  have hr3 : r ∈ filterGenreCat ps movies := (filterMinRating_sublist hmin).mem hr2
  exact ⟨mem_filterGenreCat_genre hg hgne hr3, mem_filterMinRating_pred hmin hr2⟩

/-- C5 (witness): the theorem applied to the concrete search
`find_matches(query="coco", genre="Animation", min_rating=8)`. -/
theorem filter_conjunction_witness :
    (strIn (toLowerStr "Animation") (toLowerStr recCoco.genre) ||
      strIn (toLowerStr "Animation") (toLowerStr recCoco.category)) = true ∧
      (8 : ℚ) ≤ recCoco.rating :=
  filter_conjunction none [recCoco] (.pstr "coco") psAnimMin rfl (by decide) rfl
    (show find_matches none [recCoco] (.pstr "coco") psAnimMin = .ok [recCoco] by rfl)
    (List.mem_singleton.mpr rfl)

/-- C10 (implicit): with an empty (or `None`) query and no filter parameter
supplied, `find_matches` returns the empty list: the whole collection is not
returned, and the fuzzy stage contributes nothing because it is skipped for
empty queries. -/
theorem empty_query_empty_result {scorer : Option (String → String → Nat)}
    {movies : List Record} {ps : SearchParams} {v : PyVal}
    (hg : ps.genre = none) (hc : ps.category = none) (hmr : ps.minRating = none)
    (hy : ps.year = none) (hyf : ps.yearFrom = none) (hyt : ps.yearTo = none)
    (hv : v = .pstr "" ∨ v = .pnone) :
    find_matches scorer movies v ps = .ok [] := by
  have hq : queryPrep v = .ok "" := by rcases hv with rfl | rfl <;> rfl
  have haf : applyFilters ps movies = .ok movies :=
    applyFilters_no_filters hg hc hmr hy hyf hyt
  have hlow : toLowerStr "" = "" := rfl
  have hc1 : ¬(toLowerStr "" = "" ∧ filtersPresent ps = true) := by
    rintro ⟨_, hfp⟩
    rw [filtersPresent_false hg hc hmr hy hyf hyt] at hfp
    cases hfp
  have hbase : baseMatches (toLowerStr "") ps movies = [] := by
    unfold baseMatches
    rw [if_neg hc1, if_neg (by decide), hlow]
    have htok : pyTokens "" = [] := rfl
    rw [htok, textTier_nil]
  have hfz : fuzzyStage scorer ps.enableFuzzy (toLowerStr "") ps.fuzzyThreshold
      (baseMatches (toLowerStr "") ps movies) movies = [] := by
    unfold fuzzyStage
    cases scorer with
    | none => rfl
    | some f =>
      dsimp only
      rw [if_neg]
      rintro ⟨_, hne⟩
      exact hne rfl
  unfold find_matches rankedFull
  rw [hq]
  dsimp only
  unfold bestOf
  rw [haf]
  dsimp only
  rw [hfz, hbase]
  rw [show ([] : List (Record × Nat)) ++ [] = [] from rfl]
  rw [show mergeBest [] = [] from rfl, sortStage_nil]
  simp only [Except.map, pySlice_nil]

/-- C10 (witness): the theorem applied at a concrete collection and the
empty query with default (filter-free) parameters. -/
theorem empty_query_empty_result_witness :
    find_matches none [recInception, recMatrix] (.pstr "") defaultParams = .ok [] :=
  empty_query_empty_result rfl rfl rfl rfl rfl rfl (Or.inl rfl)

/-- C6: the result list of any successful `find_matches` run never contains
two records with the same `(name, year)` identity key, and the merger keeps,
for each key, a priority at least as large as every priority produced for
that key by any matching tier. -/
theorem identity_uniqueness (scorer : Option (String → String → Nat))
    (movies : List Record) (v : PyVal) (ps : SearchParams) {out : List Record}
    (m : Record) (p : Nat)
    (h : find_matches scorer movies v ps = .ok out) :
    out.Pairwise keyDistinct ∧
      ((m, p) ∈ pairsFor scorer movies v ps →
        p ≤ priorityOf (bestFor scorer movies v ps) m) := by
  constructor
  · have hb := find_matches_ok_best h
    have hg : goodKeys (bestFor scorer movies v ps) := by
      rw [bestFor_eq_mergeBest]
      exact goodKeys_mergeBest _
    rw [hb]
    exact List.Pairwise.sublist (pySlice_sublist _ _) (sortStage_pairwise_keys hg)
  · intro hmem
    rw [bestFor_eq_mergeBest]
    rcases mergeBest_lookup_ge hmem with ⟨w, hw, hle⟩
    unfold priorityOf
    rw [hw]
    exact hle

/-- C6 (witness): the theorem applied to a concrete two-record search whose
text tier matches only `recMatrix`. -/
theorem identity_uniqueness_witness :
    List.Pairwise keyDistinct [recMatrix] ∧
      ((recMatrix, 1000) ∈ pairsFor none [recInception, recMatrix] (.pstr "the") defaultParams →
        1000 ≤ priorityOf (bestFor none [recInception, recMatrix] (.pstr "the") defaultParams)
          recMatrix) :=
  identity_uniqueness none [recInception, recMatrix] (.pstr "the") defaultParams recMatrix 1000
    (show find_matches none [recInception, recMatrix] (.pstr "the") defaultParams =
      .ok [recMatrix] by rfl)

/-- C8: a successful search with `max_results = n > 0` returns at most `n`
records, and with `max_results` equal to `None` or `0` the ranked list is
returned untruncated. -/
theorem cap_respected (scorer : Option (String → String → Nat))
    (movies : List Record) (v : PyVal) (ps : SearchParams) {out : List Record}
    (n : Int) (h : find_matches scorer movies v ps = .ok out) :
    (ps.maxResults = some n → 0 < n → (out.length : Int) ≤ n) ∧
      (ps.maxResults = none ∨ ps.maxResults = some 0 →
        find_matches scorer movies v ps = rankedFull scorer movies v ps) := by
  constructor
  · intro hmx hn
    have hb := find_matches_ok_best h
    rw [hmx, pySlice_pos hn] at hb
    have hlen : out.length ≤ n.toNat := by
      rw [hb]
      exact List.length_take_le _ _
    calc (out.length : Int) ≤ (n.toNat : Int) := by exact_mod_cast hlen
      _ = n := Int.toNat_of_nonneg (le_of_lt hn)
  · intro hcase
    unfold find_matches
    cases hr : rankedFull scorer movies v ps with
    | error e => simp only [Except.map]
    | ok full =>
      simp only [Except.map]
      rcases hcase with hmx | hmx <;> rw [hmx]
      · rw [pySlice_none]
      · rw [pySlice_zero]

/-- C8 (witness): the theorem applied to a concrete search where two records
match but `max_results = 1` keeps only the best one. -/
theorem cap_respected_witness :
    (psCap1.maxResults = some 1 → 0 < (1 : Int) →
      (([recBar] : List Record).length : Int) ≤ 1) ∧
      (psCap1.maxResults = none ∨ psCap1.maxResults = some 0 →
        find_matches none [recFooFilm, recBar] (.pstr "a") psCap1 =
          rankedFull none [recFooFilm, recBar] (.pstr "a") psCap1) :=
  cap_respected none [recFooFilm, recBar] (.pstr "a") psCap1 1
    (show find_matches none [recFooFilm, recBar] (.pstr "a") psCap1 = .ok [recBar] by rfl)

/-- C9: running `find_matches` against the module state returns the state
unchanged — the engine never mutates, inserts, or deletes records of the
supplied collection — and every returned record is a member of the supplied
collection with all its fields as stored there. -/
theorem engine_reads_only (scorer : Option (String → String → Nat)) (v : PyVal)
    (ps : SearchParams) (s : List Record) (out : List Record) (r : Record) :
    (find_matches_st scorer v ps).run s = (find_matches scorer s v ps, s) ∧
      (find_matches scorer s v ps = .ok out → r ∈ out → r ∈ s) := by
  constructor
  · rfl
  · intro h hr
    rcases find_matches_ok_mem h hr with ⟨filtered, haf, hrf⟩
    exact (applyFilters_sublist haf).mem hrf

/-- C9 (witness): the theorem applied at a concrete collection and query. -/
theorem engine_reads_only_witness :
    ((find_matches_st none (.pstr "the") defaultParams).run [recMatrix] =
      (find_matches none [recMatrix] (.pstr "the") defaultParams, [recMatrix])) ∧
      recMatrix ∈ [recMatrix] :=
  ⟨(engine_reads_only none (.pstr "the") defaultParams [recMatrix] [recMatrix] recMatrix).1,
    (engine_reads_only none (.pstr "the") defaultParams [recMatrix] [recMatrix] recMatrix).2
      (show find_matches none [recMatrix] (.pstr "the") defaultParams = .ok [recMatrix] by rfl)
      (List.mem_singleton.mpr rfl)⟩

/-- C7: for every candidate in the capped fuzzy subset, a similarity score
equal to `fuzzy_threshold` is included (inclusive lower bound) while a score
of `fuzzy_threshold - 1` is excluded; every fuzzy pair's priority equals the
integer similarity score, and under the scorer contract (scores in 0–100)
that priority is at most 100, strictly below the 800/900/1000 text tiers. -/
theorem fuzzy_threshold_boundary (f : String → String → Nat) (q : String)
    (thr : Nat) (existing : List (Record × Nat)) (movieList : List Record)
    (m m2 : Record) (p : Nat) (hq : q ≠ "")
    (hm : m ∈ fuzzySubset existing movieList) :
    (f q (searchText m) = thr →
      (m, thr) ∈ fuzzyStage (some f) true q thr existing movieList) ∧
      (f q (searchText m) + 1 = thr →
        (m, p) ∉ fuzzyStage (some f) true q thr existing movieList) ∧
      ((m2, p) ∈ fuzzyStage (some f) true q thr existing movieList →
        p = f q (searchText m2) ∧ (f q (searchText m2) ≤ 100 → p ≤ 100 ∧ p < 800)) := by
  refine ⟨?_, ?_, ?_⟩
  · intro he
    unfold fuzzyStage
    dsimp only
    rw [if_pos ⟨rfl, hq⟩]
    refine List.mem_map.mpr ⟨(thr, m), ?_, rfl⟩
    rw [mem_pySortDesc]
    exact mem_fuzzyScored.mpr ⟨hm, he.symm, le_refl _⟩
  · intro he hmem
    rcases fuzzyStage_mem hmem with ⟨f2, hf2, _, hp, ht⟩
    injection hf2 with hf2e
    subst hf2e
    omega
  · intro hmem
    rcases fuzzyStage_mem hmem with ⟨f2, hf2, _, hp, ht⟩
    injection hf2 with hf2e
    subst hf2e
    exact ⟨hp, fun h100 => by omega⟩

/-- C7 (witness): the theorem applied to a constant scorer returning exactly
the threshold. -/
theorem fuzzy_threshold_boundary_witness :
    (const70 "zz" (searchText recFooFilm) = 70 →
      (recFooFilm, 70) ∈ fuzzyStage (some const70) true "zz" 70 [] [recFooFilm]) ∧
      (const70 "zz" (searchText recFooFilm) + 1 = 70 →
        (recFooFilm, 70) ∉ fuzzyStage (some const70) true "zz" 70 [] [recFooFilm]) ∧
      ((recFooFilm, 70) ∈ fuzzyStage (some const70) true "zz" 70 [] [recFooFilm] →
        70 = const70 "zz" (searchText recFooFilm) ∧
          (const70 "zz" (searchText recFooFilm) ≤ 100 → 70 ≤ 100 ∧ 70 < 800)) :=
  fuzzy_threshold_boundary const70 "zz" 70 [] [recFooFilm] recFooFilm recFooFilm 70
    (by decide) (by decide)

/-- C1 (counterexample): with `sort_by="year"`, two returned records share
year and rating, yet the one with the smaller revenue comes first (it has
the higher match priority) — refuting the claim that year ties are broken by
rating then revenue. -/
theorem sort_override_year_cex :
    find_matches (some const70) [recFooFilm, recBar] (.pstr "foo") psYear =
      .ok [recFooFilm, recBar] ∧
      recFooFilm.year = recBar.year ∧ recFooFilm.rating = recBar.rating ∧
      recFooFilm.box_office_millions < recBar.box_office_millions :=
  ⟨by rfl, rfl, rfl, by decide⟩

/-- C1 (amended): with `sort_by="year"` the result of a successful search is
ordered by descending year, with ties broken by rating and then by the
merged match priority (revenue is not part of this branch's sort key). -/
theorem sort_override_year (scorer : Option (String → String → Nat))
    (movies : List Record) (v : PyVal) (ps : SearchParams) {out : List Record}
    (s : String) (hs : ps.sortBy = some s) (hne : s ≠ "")
    (hy : toLowerStr s = "year")
    (h : find_matches scorer movies v ps = .ok out) :
    out.Pairwise (yearSortRel (bestFor scorer movies v ps)) := by
  have hb := find_matches_ok_best h
  rw [hb, hs]
  refine List.Pairwise.sublist (pySlice_sublist _ _) ?_
  unfold sortStage
  dsimp only
  rw [if_neg hne, hy]
  rw [if_neg (by decide), if_neg (by decide), if_pos rfl]
  exact pySortDesc_sorted _ _

/-- C1 (witness): the amended theorem applied to the concrete collection of
the counterexample. -/
theorem sort_override_year_witness :
    List.Pairwise
      (yearSortRel (bestFor (some const70) [recFooFilm, recBar] (.pstr "foo") psYear))
      [recFooFilm, recBar] :=
  sort_override_year (some const70) [recFooFilm, recBar] (.pstr "foo") psYear "year"
    rfl (by decide) (by decide)
    (show find_matches (some const70) [recFooFilm, recBar] (.pstr "foo") psYear =
      .ok [recFooFilm, recBar] by rfl)

theorem char_toLower_of_isDigit {c : Char} (h : c.isDigit = true) : c.toLower = c := by
  unfold Char.toLower
  rw [if_neg]
  simp only [Char.isDigit, Bool.and_eq_true, decide_eq_true_eq] at h
  obtain ⟨h1, h2⟩ := h
  unfold Char.toNat
  rintro ⟨ha, hb⟩
  simp only [GE.ge, UInt32.le_def, BitVec.le_def] at h1 h2
  simp only [UInt32.toNat] at ha hb
  have e48 : ((48 : UInt32)).toBitVec.toNat = 48 := rfl
  have e57 : ((57 : UInt32)).toBitVec.toNat = 57 := rfl
  rw [e48] at h1
  rw [e57] at h2
  omega

theorem map_toLower_of_digits : ∀ {cs : List Char}, (∀ c ∈ cs, c.isDigit = true) →
    cs.map Char.toLower = cs := by
  intro cs
  induction cs with
  | nil => intro _; rfl
  | cons c cs ih =>
    intro h
    rw [List.map_cons, char_toLower_of_isDigit (h c (List.mem_cons_self _ _)),
      ih (fun a ha => h a (List.mem_cons_of_mem _ ha))]

theorem toLowerStr_of_digits {q : String} (h : isDigitStr q = true) : toLowerStr q = q := by
  obtain ⟨d⟩ := q
  unfold isDigitStr at h
  rw [Bool.and_eq_true] at h
  obtain ⟨-, h2⟩ := h
  rw [List.all_eq_true] at h2
  unfold toLowerStr
  exact congrArg String.mk (map_toLower_of_digits (by simpa using h2))

/-- C2 (counterexample): with fuzzy matching enabled and a scorer available,
the all-digit query `"2010"` returns a record whose year is 1984 (its name
contains the digits), because the fuzzy stage still runs for numeric
queries — refuting the claim that no other matching tier is evaluated. -/
theorem numeric_query_cex :
    find_matches (some substrScorer) [recContact] (.pstr "2010") defaultParams =
      .ok [recContact] ∧ recContact.year ≠ 2010 :=
  ⟨by rfl, by decide⟩

/-- C2 (amended): for a well-formed collection (distinct identity keys), an
all-digit query (within the sanitizer's length bound) and no truncation, a
successful search returns exactly the filtered records whose `year` equals
the query's integer value, each merged with priority 1000 — provided the
fuzzy stage is disabled or no scorer is available; with fuzzy enabled and a
scorer present the fuzzy stage still runs and can add further records. -/
theorem numeric_query_exact (scorer : Option (String → String → Nat))
    (movies : List Record) (ps : SearchParams) (q : String) (r : Record)
    {out filtered : List Record}
    (hwf : movies.Pairwise keyDistinct)
    (hfz : ps.enableFuzzy = false ∨ scorer = none)
    (hmx : ps.maxResults = none)
    (hdig : isDigitStr q = true)
    (hsan : queryPrep (.pstr q) = .ok q)
    (h : find_matches scorer movies (.pstr q) ps = .ok out)
    (haf : applyFilters ps movies = .ok filtered) :
    (r ∈ out ↔ r ∈ filtered ∧ r.year = digitsToInt q) ∧
      (r ∈ out → priorityOf (bestFor scorer movies (.pstr q) ps) r = 1000) := by
  have hlow : toLowerStr q = q := toLowerStr_of_digits hdig
  have hbest : bestFor scorer movies (.pstr q) ps =
      mergeBest ((filtered.filter (fun m => m.year = digitsToInt q)).map
        (fun m => (m, 1000))) := by
    unfold bestFor
    rw [hsan]
    dsimp only
    unfold bestOf
    rw [haf]
    dsimp only
    rw [hlow, fuzzyStage_off hfz, List.append_nil, baseMatches_digit hdig]
  have hout : out = sortStage ps.sortBy (bestFor scorer movies (.pstr q) ps) := by
    have hb := find_matches_ok_best h
    rw [hmx, pySlice_none] at hb
    exact hb
  have hfwf : filtered.Pairwise keyDistinct :=
    List.Pairwise.sublist (applyFilters_sublist haf) hwf
  have hback : r ∈ filtered → r.year = digitsToInt q →
      ∃ w, lookupB (keyOf r) (bestFor scorer movies (.pstr q) ps) = some w ∧
        w.1 = 1000 ∧ w.2 = r := by
    intro hrf hry
    have hrb : (r, 1000) ∈ (filtered.filter (fun m => m.year = digitsToInt q)).map
        (fun m => (m, 1000)) :=
      List.mem_map.mpr ⟨r, List.mem_filter.mpr ⟨hrf, by simpa using hry⟩, rfl⟩
    rcases mergeBest_lookup_ge hrb with ⟨w, hw, hle⟩
    have hwmem := lookupB_mem hw
    have hwkey : keyOf w.2 = keyOf r := ((goodKeys_mergeBest _).2 _ hwmem).symm
    have hwpairs := mergeBest_mem hwmem
    rcases List.mem_map.mp hwpairs with ⟨a2, ha2, ha2e⟩
    have ha2r : a2 = w.2 := congrArg Prod.fst ha2e
    have hw1 : w.1 = 1000 := (congrArg Prod.snd ha2e).symm
    have hw2f : w.2 ∈ filtered := List.mem_of_mem_filter (ha2r ▸ ha2)
    have hw2r : w.2 = r := eq_of_mem_keyDistinct hfwf hw2f hrf hwkey
    exact ⟨w, by rw [hbest]; exact hw, hw1, hw2r⟩
  constructor
  · constructor
    · intro hr
      rw [hout, sortStage_mem] at hr
      rcases List.mem_map.mp hr with ⟨e, he, hre⟩
      rw [hbest] at he
      have hp := mergeBest_mem he
      rw [hre] at hp
      rcases List.mem_map.mp hp with ⟨a, ha, hae⟩
      have har : a = r := congrArg Prod.fst hae
      subst har
      rcases List.mem_filter.mp ha with ⟨hmem, hyear⟩
      exact ⟨hmem, by simpa using hyear⟩
    · rintro ⟨hrf, hry⟩
      rcases hback hrf hry with ⟨w, hw, hw1, hw2⟩
      rw [hout, sortStage_mem]
      exact List.mem_map.mpr ⟨(keyOf r, w), lookupB_mem hw, hw2⟩
  · intro hr
    have hrfy : r ∈ filtered ∧ r.year = digitsToInt q := by
      rw [hout, sortStage_mem] at hr
      rcases List.mem_map.mp hr with ⟨e, he, hre⟩
      rw [hbest] at he
      have hp := mergeBest_mem he
      rw [hre] at hp
      rcases List.mem_map.mp hp with ⟨a, ha, hae⟩
      have har : a = r := congrArg Prod.fst hae
      subst har
      rcases List.mem_filter.mp ha with ⟨hmem, hyear⟩
      exact ⟨hmem, by simpa using hyear⟩
    rcases hback hrfy.1 hrfy.2 with ⟨w, hw, hw1, _⟩
    unfold priorityOf
    rw [hw]
    dsimp only
    exact hw1

/-- C2 (witness): the amended theorem applied to a concrete two-record
collection with fuzzy unavailable: `search("2010")` returns exactly the
year-2010 record, at priority 1000. -/
theorem numeric_query_witness :
    (recInception ∈ [recInception] ↔
      recInception ∈ [recInception, recMatrix] ∧ recInception.year = digitsToInt "2010") ∧
      (recInception ∈ [recInception] →
        priorityOf (bestFor none [recInception, recMatrix] (.pstr "2010") psNoCap)
          recInception = 1000) :=
  numeric_query_exact none [recInception, recMatrix] psNoCap "2010" recInception
    (by decide) (Or.inr rfl) rfl (by decide) (by rfl)
    (show find_matches none [recInception, recMatrix] (.pstr "2010") psNoCap =
      .ok [recInception] by rfl)
    (show applyFilters psNoCap [recInception, recMatrix] =
      .ok [recInception, recMatrix] by rfl)

end MovieRec
